import Mathlib

/-!
Verification of the Connect-N engine (`connect4.py`).

This file gives a shallow embedding of the game core: the mutable game
state (`GameSt` for the engine, `SimSt` for the solver's simulation),
`BaseGame.place` with `Game`'s turn/win/draw handlers, the win detector
`_check_win`, the solver's make/unmake pair `_simulation_place` /
`_simulation_undo_turn`, and the alpha-beta evaluator
`_explore_unwrapped` together with `_make_move`.

Python integers that are provably non-negative throughout the modelled
code (board keys, bit masks, stack heights, move counts) are embedded
as `Nat`; quantities that the source computes and compares possibly
below zero (landing rows, scores, search depths) are embedded as `Int`
or as the `Score` type below.  Failure (an uncaught `IndexError` or a
failing `assert`) is embedded as `Option.none`.  The evaluator takes an
explicit fuel argument standing for the (finite) recursion of the
source; all statements about it supply concrete sufficient fuel.
-/

/-- Scores in the solver mix Python `int`s with `float("inf")` and
`-float("inf")`.  Only negation, absolute value, order comparisons and
max are ever applied to them, so an integer extended with two
infinities is a faithful model. -/
inductive Score where
  | ninf : Score
  | fin : Int → Score
  | pinf : Score
deriving DecidableEq, Repr

/-- Negation of a score (Python unary minus on the number). -/
def Score.neg : Score → Score
  | .ninf => .pinf
  | .fin v => .fin (-v)
  | .pinf => .ninf

/-- Absolute value of a score (Python `abs`). -/
def Score.abs : Score → Score
  | .ninf => .pinf
  | .fin v => .fin |v|
  | .pinf => .pinf

/-- Strict order on scores (Python `<` between ints and infinities). -/
def Score.lt : Score → Score → Bool
  | .ninf, .ninf => false
  | .ninf, _ => true
  | .fin _, .ninf => false
  | .fin a, .fin b => a < b
  | .fin _, .pinf => true
  | .pinf, _ => false

/-- Non-strict order on scores; the order is total (no NaN arises), so
Python `a <= b` agrees with `not (b < a)`. -/
def Score.le (a b : Score) : Bool := !(Score.lt b a)

/-- Python `max` of two scores: returns the second exactly when it is
strictly greater. -/
def Score.max (a b : Score) : Score := if Score.lt a b then b else a

/-- `TurnResult` enumeration from the source. -/
inductive TurnResult where
  | INVALID : TurnResult
  | WIN : TurnResult
  | DRAW : TurnResult
  | OK : TurnResult
deriving DecidableEq, Repr

/-- `TurnResult.__bool__`: `self != TurnResult.INVALID`. -/
def TurnResult.toBool (r : TurnResult) : Bool := decide (r ≠ TurnResult.INVALID)

/-- The immutable board parameters of `BaseGame`. -/
structure Cfg where
  nCols : Nat
  nRows : Nat
  nConnect : Nat
  nPlayers : Nat
deriving DecidableEq, Repr

/-- `BaseGame.__init__` minus the derived tables: the constructor
asserts the configuration bounds and otherwise just stores the
parameters.  `none` models a failing `assert`. -/
def baseGameInit (nCols nRows nConnect nPlayers : Nat) : Option Cfg :=
  if 2 ≤ nCols ∧ 2 ≤ nRows ∧ 2 ≤ nPlayers ∧
     2 ≤ nConnect ∧ nConnect ≤ max nCols nRows
  then some ⟨nCols, nRows, nConnect, nPlayers⟩ else none

/-- Entry `position_multipliers[row][col]` of the table built in
`BaseGame.__init__`: the table is the list of the powers of
`n_players + 1` chunked into rows, so the entry at `(row, col)` is
`(n_players + 1) ^ (row * n_cols + col)`. -/
def posMult (g : Cfg) (row col : Nat) : Nat :=
  (g.nPlayers + 1) ^ (row * g.nCols + col)

/-- The mutable state of `BaseGame` read and written by `place`. -/
structure GameSt where
  heights : List Nat
  player_turn : Nat
  total_moves : Nat
  board_id : Nat
  masks : List Nat
deriving DecidableEq, Repr

/-- The solver's working state: `_make_move` copies
`heights`, `player_turn`, `total_moves` and (by aliasing)
`player_masked_board_ids` from the game; `board_id` is threaded as an
explicit argument through the simulation. -/
structure SimSt where
  heights : List Nat
  player_turn : Nat
  total_moves : Nat
  masks : List Nat
deriving DecidableEq, Repr

/-- The parameters stored by `CachingAlphaBetaBot.__init__` (the cache
size only bounds memoization and does not affect computed values). -/
structure BotCfg where
  maxDepth : Int
  initAlpha : Score
  initBeta : Score
deriving DecidableEq, Repr

/-- `CachingAlphaBetaBot.__init__` performs no validation of its
arguments; construction always succeeds.  The `Option` records that
there is no failing path. -/
def catbInit (maxDepth : Int) (alpha beta : Score) : Option BotCfg :=
  some ⟨maxDepth, alpha, beta⟩

/-- Resolution of a Python list index of length `n`: indices in
`[0, n)` are taken as written, indices in `[-n, 0)` count from the
end, anything else raises `IndexError` (`none`). -/
def pyIdx (n : Nat) (i : Int) : Option Nat :=
  if 0 ≤ i ∧ i < (n : Int) then some i.toNat
  else if -(n : Int) ≤ i ∧ i < 0 then some (i + n).toNat
  else none

/-- The in-board test `0 <= r < n_rows and 0 <= c < n_cols` of
`_check_win`. -/
def inBoard (g : Cfg) (r c : Int) : Bool :=
  decide (0 ≤ r) && decide (r < (g.nRows : Int)) &&
  decide (0 ≤ c) && decide (c < (g.nCols : Int))

/-- One conjunct of the walk in `_check_win`: the cell `(r, c)` is on
the board and the given occupancy mask has the bit `r * n_cols + c`
set. -/
def cellBit (g : Cfg) (mask : Nat) (r c : Int) : Bool :=
  inBoard g r c && mask.testBit (r * (g.nCols : Int) + c).toNat

/-- One directional walk of `_check_win`: starting from `(r, c)`, step
up to `n` times in direction `(dr, dc)`, counting consecutive cells
that are on the board and set in the mask, stopping at the first
failure (the `break`). -/
def rayCount (g : Cfg) (mask : Nat) : Int → Int → Int → Int → Nat → Nat
  | _, _, _, _, 0 => 0
  | r, c, dr, dc, n + 1 =>
    if cellBit g mask (r + dr) (c + dc) then
      1 + rayCount g mask (r + dr) (c + dc) dr dc n
    else 0

/-- The four direction vectors of `_check_win`. -/
def dirList : List (Int × Int) := [(1, 0), (0, 1), (1, 1), (1, -1)]

/-- `_check_win(row, col, player)` as a function of the player's
occupancy mask: for each axis, `1` for the placed cell plus the
forward walk plus the backward walk, reporting a win as soon as one
axis reaches `n_connect`. -/
def checkWinMask (g : Cfg) (mask : Nat) (row col : Nat) : Bool :=
  dirList.any fun d =>
    decide (g.nConnect ≤
      1 + rayCount g mask (row : Int) (col : Int) d.1 d.2 (g.nConnect - 1)
        + rayCount g mask (row : Int) (col : Int) (-d.1) (-d.2) (g.nConnect - 1))

/-- `_check_win` as called in the source: it reads
`player_masked_board_ids[player]` and runs the walk on that mask. -/
def checkWinP (g : Cfg) (masks : List Nat) (row col player : Nat) : Bool :=
  checkWinMask g (masks.getD player 0) row col

/-- `BaseGame.place(col)` with `Game`'s `_next_turn` / `game_win` /
`game_draw` result values (their GUI side effects are not part of the
decision core).  The requested column is an arbitrary integer, indexed
into `heights` with Python list semantics; `none` is an uncaught
`IndexError`. -/
def place (g : Cfg) (st : GameSt) (col : Int) : Option (TurnResult × GameSt) :=
  match pyIdx g.nCols col with
  | none => none
  | some c =>
    let h := st.heights.getD c 0
    let rowI : Int := (g.nRows : Int) - h - 1
    if rowI < 0 then some (TurnResult.INVALID, st)
    else
      let row := rowI.toNat
      let st' : GameSt :=
        { heights := st.heights.set c (h + 1),
          player_turn := st.player_turn,
          total_moves := st.total_moves + 1,
          board_id := st.board_id + st.player_turn * posMult g row c,
          masks := st.masks.set st.player_turn
            ((st.masks.getD st.player_turn 0) ||| (1 <<< (row * g.nCols + c))) }
      if checkWinP g st'.masks row c st.player_turn then
        some (TurnResult.WIN, st')
      else if st'.total_moves = g.nCols * g.nRows then
        some (TurnResult.DRAW, st')
      else
        some (TurnResult.OK, { st' with player_turn := st.player_turn % g.nPlayers + 1 })

/-- `Game.place(col)`: forwards to `BaseGame.place` and updates the GUI
tile exactly when the result is truthy.  The boolean records whether
`gui.update_tile` was invoked. -/
def gamePlace (g : Cfg) (st : GameSt) (col : Int) : Option (TurnResult × GameSt × Bool) :=
  match place g st col with
  | none => none
  | some (res, st') => some (res, st', res.toBool)

/-- One iteration of `RandomBot._make_move`'s loop body for a given
column: `true` means `while not game.place(...)` keeps looping. -/
def randomBotRetries (g : Cfg) (st : GameSt) (col : Int) : Option Bool :=
  (place g st col).map fun r => !(r.1.toBool)

/-- `CachingAlphaBetaBot._simulation_place(board_id, col)`: compute the
landing row; on a full column return the negative row and change
nothing; otherwise bump the move count and the column height, add the
mover's digit to the threaded board key, set the mover's occupancy bit
and advance the turn.  Returns the row, the new key and the new
state. -/
def simPlace (g : Cfg) (st : SimSt) (bid : Nat) (c : Nat) : Int × Nat × SimSt :=
  let h := st.heights.getD c 0
  let rowI : Int := (g.nRows : Int) - h - 1
  if rowI < 0 then (rowI, bid, st)
  else
    let row := rowI.toNat
    (rowI,
     bid + st.player_turn * posMult g row c,
     { heights := st.heights.set c (h + 1),
       player_turn := st.player_turn % g.nPlayers + 1,
       total_moves := st.total_moves + 1,
       masks := st.masks.set st.player_turn
         ((st.masks.getD st.player_turn 0) ||| (1 <<< (row * g.nCols + c))) })

/-- `CachingAlphaBetaBot._simulation_undo_turn(board_id, col)`: the row
of the last tile in the column, the move count and height decrements,
the turn stepped back to the previous player, and that player's digit
and occupancy bit removed. -/
def simUndo (g : Cfg) (st : SimSt) (bid : Nat) (c : Nat) : Nat × SimSt :=
  let row := g.nRows - st.heights.getD c 0
  let prior := if 1 < st.player_turn then st.player_turn - 1 else g.nPlayers
  (bid - prior * posMult g row c,
   { heights := st.heights.set c (st.heights.getD c 0 - 1),
     player_turn := prior,
     total_moves := st.total_moves - 1,
     masks := st.masks.set prior
       ((st.masks.getD prior 0) - (1 <<< (row * g.nCols + c))) })

/-- The immediate-terminal scan of `_explore_unwrapped`: for each
column in order, place, test for a win by the mover or for the board
filling up, undo, and return the first hit.  `scoreIfWin` and
`currentTurn` are the values captured before the loop. -/
def scanLoop (g : Cfg) (scoreIfWin : Int) (currentTurn : Nat) :
    List Nat → SimSt → Nat → (Option (Score × Nat × Int)) × SimSt × Nat
  | [], st, bid => (none, st, bid)
  | c :: cs, st, bid =>
    let pl := simPlace g st bid c
    if pl.1 < 0 then scanLoop g scoreIfWin currentTurn cs pl.2.2 pl.2.1
    else
      let isWin := checkWinP g pl.2.2.masks pl.1.toNat c currentTurn
      let isLast := pl.2.2.total_moves = g.nCols * g.nRows
      let un := simUndo g pl.2.2 pl.2.1 c
      if isWin then (some (Score.fin scoreIfWin, currentTurn, (c : Int)), un.2, un.1)
      else if isLast then (some (Score.fin 0, 0, (c : Int)), un.2, un.1)
      else scanLoop g scoreIfWin currentTurn cs un.2 un.1

/-- The center-out column order of the recursive expansion, flattening
the `offset` loop of the source into one list. -/
def centerOutCols (nCols : Nat) : List Nat :=
  (List.range ((nCols + 1) / 2)).flatMap fun offset =>
    let left := (nCols - 1) / 2 - offset
    let right := (nCols + 1) / 2 + offset
    if right < nCols then [left, right] else [left]

/-- Conversion of a child result to a parent-relative score:
`if player != current_turn: score = -score`. -/
def applySign (currentTurn : Nat) (score : Score) (player : Nat) : Score :=
  if player ≠ currentTurn then score.neg else score

/-- The recursive-expansion loop of `_explore_unwrapped`, over the
remaining center-out columns.  `child` is the memoized recursive call
at one less depth; the loop threads the simulation state, the board
key, `alpha` and the running best, and can return early on a beta
cutoff.  At the end of the loop the source returns the absolute best
score with its player and column. -/
def expandLoop (g : Cfg)
    (child : SimSt → Nat → Option Score → Option Score → Option ((Score × Nat × Int) × SimSt))
    (currentTurn : Nat) (beta : Score) :
    List Nat → SimSt → Nat → Score → Score → Nat → Int →
    Option ((Score × Nat × Int) × SimSt)
  | [], st, _, _, bestScore, bestPlayer, bestCol =>
    some ((bestScore.abs, bestPlayer, bestCol), st)
  | c :: cs, st, bid, alpha, bestScore, bestPlayer, bestCol =>
    let pl := simPlace g st bid c
    if pl.1 < 0 then
      expandLoop g child currentTurn beta cs pl.2.2 pl.2.1 alpha bestScore bestPlayer bestCol
    else
      match child pl.2.2 pl.2.1 (some beta.neg) (some alpha.neg) with
      | none => none
      | some ((score0, player, _), stc) =>
        let score := applySign currentTurn score0 player
        let un := simUndo g stc pl.2.1 c
        let best :=
          if Score.lt bestScore score then (score, player, (c : Int))
          else (bestScore, bestPlayer, bestCol)
        let alpha' := Score.max alpha score
        if Score.le beta score then some ((score.abs, player, (c : Int)), un.2)
        else expandLoop g child currentTurn beta cs un.2 un.1 alpha' best.1 best.2.1 best.2.2

/-- `CachingAlphaBetaBot._explore_unwrapped(board_id, remaining_depth,
alpha, beta)`.  Omitted `alpha`/`beta` (the `None` defaults) reseed
both from the bot's initial window; a failing `assert alpha < beta` is
`none`.  A zero remaining depth returns `(0, 0, -1)`; depth `-1`
(unbounded) recurses at depth `-1`.  Then the immediate-terminal scan,
the upper-bound pruning with its hard cutoff `(beta, 0, -1)`, and the
center-out expansion.  The first argument is recursion fuel standing
for the terminating recursion of the source; `none` also results if it
runs out. -/
def exploreU (g : Cfg) (b : BotCfg) :
    Nat → SimSt → Nat → Int → Option Score → Option Score →
    Option ((Score × Nat × Int) × SimSt)
  | 0, _, _, _, _, _ => none
  | fuel + 1, st, bid, depth, aIn, bIn =>
    let ab : Score × Score :=
      match aIn, bIn with
      | some a, some b' => (a, b')
      | _, _ => (b.initAlpha, b.initBeta)
    if Score.lt ab.1 ab.2 = false then none
    else if depth = 0 then some ((Score.fin 0, 0, -1), st)
    else
      let depth' : Int := if depth = -1 then 0 else depth
      let scoreIfWin : Int := (g.nCols : Int) * g.nRows - st.total_moves
      let currentTurn := st.player_turn
      match scanLoop g scoreIfWin currentTurn (List.range g.nCols) st bid with
      | (some r, st1, _) => some (r, st1)
      | (none, st1, bid1) =>
        let bps : Score := Score.fin (scoreIfWin - g.nPlayers)
        let beta' := if Score.lt bps ab.2 then bps else ab.2
        if Score.le beta' ab.1 then some ((beta', 0, -1), st1)
        else
          expandLoop g
            (fun st' bid' a' b' => exploreU g b fuel st' bid' (depth' - 1) a' b')
            currentTurn beta' (centerOutCols g.nCols) st1 bid1 ab.1 Score.ninf 0 (-1)

/-- `CachingAlphaBetaBot._make_move(game)`: copy the game state into
the simulation fields, search with `remaining_depth = min(max_depth,
empty_cells)` and the reseeded initial window, require the returned
column to be a real column (`assert col != -1`, `none` on failure) and
play it on the game. -/
def makeMove (g : Cfg) (b : BotCfg) (fuel : Nat) (gst : GameSt) :
    Option (TurnResult × GameSt) :=
  let st : SimSt := ⟨gst.heights, gst.player_turn, gst.total_moves, gst.masks⟩
  let depth : Int := min b.maxDepth ((g.nCols : Int) * g.nRows - gst.total_moves)
  match exploreU g b fuel st gst.board_id depth none none with
  | none => none
  | some ((_, _, col), stOut) =>
    if col = -1 then none
    else place g { gst with heights := stOut.heights, masks := stOut.masks } col

/-- One make step on the pair (threaded board key, simulation state),
as the search performs it. -/
def simStep (g : Cfg) (p : Nat × SimSt) (c : Nat) : Nat × SimSt :=
  (simPlace g p.2 p.1 c).2

/-- One unmake step on the pair (threaded board key, simulation
state). -/
def undoStep (g : Cfg) (p : Nat × SimSt) (c : Nat) : Nat × SimSt :=
  simUndo g p.2 p.1 c

/-- A sequence of columns is legal from a position when each column in
turn is in range and not yet full at the moment it is played. -/
def legalSeqB (g : Cfg) : Nat × SimSt → List Nat → Bool
  | _, [] => true
  | p, c :: cs =>
    decide (c < g.nCols) && decide (p.2.heights.getD c 0 < g.nRows) &&
    legalSeqB g (simStep g p c) cs

/-- Well-formedness of a simulation state: the two lists have their
constructed lengths, the mover is one of the players, no column
overflows the board, and every cell above a column's stack is clear in
every occupancy mask (gravity).  These all hold for every state the
game or the search can reach. -/
def SimInv (g : Cfg) (st : SimSt) : Prop :=
  st.heights.length = g.nCols ∧
  st.masks.length = g.nPlayers + 1 ∧
  1 ≤ st.player_turn ∧ st.player_turn ≤ g.nPlayers ∧
  (∀ c, c < g.nCols → st.heights.getD c 0 ≤ g.nRows) ∧
  (∀ p, p ≤ g.nPlayers → ∀ c, c < g.nCols → ∀ r, r < g.nRows →
    r + st.heights.getD c 0 < g.nRows →
    (st.masks.getD p 0).testBit (r * g.nCols + c) = false)

/-- `BaseGame.get_tile(row, col)`: digit extraction from the board
key. -/
def tile (g : Cfg) (bid : Nat) (row col : Nat) : Nat :=
  bid % (posMult g row col * (g.nPlayers + 1)) / posMult g row col

/-- Number of occupied cells of column `c` in the board encoded by
`bid`. -/
def colHeight (g : Cfg) (bid : Nat) (c : Nat) : Nat :=
  ((List.range g.nRows).filter fun r => tile g bid r c ≠ 0).length

/-- The column heights determined by a board key. -/
def keyHeights (g : Cfg) (bid : Nat) : List Nat :=
  (List.range g.nCols).map (colHeight g bid)

/-- The occupancy mask of player `p` determined by a board key (slot
`0` holds the mask of empty cells, as built by `BaseGame.__init__`
when reconstructing from a supplied game state). -/
def playerMask (g : Cfg) (bid : Nat) (p : Nat) : Nat :=
  ((List.range (g.nRows * g.nCols)).map fun k =>
    if tile g bid (k / g.nCols) (k % g.nCols) = p then 2 ^ k else 0).sum

/-- The full mask list determined by a board key. -/
def keyMasks (g : Cfg) (bid : Nat) : List Nat :=
  (List.range (g.nPlayers + 1)).map (playerMask g bid)

/-- The move count determined by a board key (`total_moves` is the sum
of the heights). -/
def keyTotal (g : Cfg) (bid : Nat) : Nat :=
  (keyHeights g bid).sum

/-- A simulation state is consistent with a board key when its heights,
masks and move count are the ones the key determines — as holds for
any position built by the engine from a `(key, heights, turn)` triple
and maintained by legal play. -/
def Consistent (g : Cfg) (st : SimSt) (bid : Nat) : Prop :=
  st.heights = keyHeights g bid ∧ st.masks = keyMasks g bid ∧
  st.total_moves = keyTotal g bid

/-- The claim-side reading of the win predicate: along some axis there
is a contiguous segment of cells, all inside the board and owned by
the player, that contains the cell `(row, col)` (positions `-b` to `a`
of the segment, position `0` being `(row, col)` itself) and has length
at least `n_connect`. -/
def specRunWin (g : Cfg) (mask : Nat) (row col : Nat) : Prop :=
  ∃ d ∈ dirList, ∃ a b : Nat,
    g.nConnect ≤ a + b + 1 ∧
    ∀ i : Int, -(b : Int) ≤ i → i ≤ (a : Int) →
      cellBit g mask ((row : Int) + i * d.1) ((col : Int) + i * d.2) = true
theorem lor_two_pow_of_testBit_false {m k : Nat} (h : m.testBit k = false) :
    m ||| 2 ^ k = m + 2 ^ k := by
  have hpos : 0 < 2 ^ (k + 1) := Nat.pos_pow_of_pos _ (by norm_num)
  set q := m / 2 ^ (k + 1) with hq
  set r := m % 2 ^ (k + 1) with hr
  have hqr : 2 ^ (k + 1) * q + r = m := by
    rw [hq, hr]; exact Nat.div_add_mod m (2 ^ (k + 1))
  have hrlt : r < 2 ^ (k + 1) := Nat.mod_lt _ hpos
  have hbr : r.testBit k = false := by
    rw [hr, Nat.testBit_mod_two_pow]
    simp [h]
  have h2 : 2 ^ (k + 1) = 2 * 2 ^ k := by ring
  have hrk : r < 2 ^ k := by
    by_contra hge
    push_neg at hge
    have hdiv : r / 2 ^ k = 1 :=
      Nat.div_eq_of_lt_le (by simpa using hge) (by omega)
    have : r.testBit k = true := by
      rw [Nat.testBit_to_div_mod, hdiv]
      decide
    simp [this] at hbr
  have hsum : m + 2 ^ k = 2 ^ (k + 1) * q + (r + 2 ^ k) := by omega
  have hrk2 : r + 2 ^ k < 2 ^ (k + 1) := by omega
  apply Nat.eq_of_testBit_eq
  intro j
  rw [Nat.testBit_or, hsum, Nat.testBit_mul_pow_two_add _ hrk2 j]
  conv_lhs => rw [← hqr, Nat.testBit_mul_pow_two_add _ hrlt j]
  rcases lt_trichotomy j k with hj | rfl | hj
  · have hjk : j < k + 1 := by omega
    rw [if_pos hjk, if_pos hjk, Nat.testBit_two_pow_of_ne (by omega), Bool.or_false]
    rw [show r + 2 ^ k = 2 ^ k * 1 + r by ring, Nat.testBit_mul_pow_two_add _ hrk j,
      if_pos hj]
  · rw [if_pos (by omega), if_pos (by omega), Nat.testBit_two_pow_self, Bool.or_true]
    rw [show r + 2 ^ j = 2 ^ j * 1 + r by ring, Nat.testBit_mul_pow_two_add _ hrk j,
      if_neg (by omega)]
    simp
  · rw [if_neg (by omega), if_neg (by omega), Nat.testBit_two_pow_of_ne (by omega),
      Bool.or_false]

theorem lor_sub_two_pow_of_testBit_false {m k : Nat} (h : m.testBit k = false) :
    (m ||| 2 ^ k) - 2 ^ k = m := by
  rw [lor_two_pow_of_testBit_false h]; omega

theorem testBit_lor_two_pow (m k j : Nat) :
    (m ||| 2 ^ k).testBit j = (m.testBit j || decide (k = j)) := by
  rw [Nat.testBit_or, Nat.testBit_two_pow]

theorem getD_set_self {l : List Nat} {i : Nat} (hi : i < l.length) (v : Nat) :
    (l.set i v).getD i 0 = v := by
  simp [List.getD_eq_getElem?_getD, List.getElem?_set_self (by simpa using hi)]

theorem getD_set_ne {l : List Nat} {i j : Nat} (h : i ≠ j) (v : Nat) :
    (l.set i v).getD j 0 = l.getD j 0 := by
  simp [List.getD_eq_getElem?_getD, List.getElem?_set_ne h]

theorem set_getD_self {l : List Nat} {i : Nat} (hi : i < l.length) :
    l.set i (l.getD i 0) = l := by
  apply List.ext_getElem (by simp)
  intro n h1 h2
  rw [List.getElem_set]
  by_cases hni : i = n
  · subst hni
    simp [List.getD_eq_getElem?_getD, List.getElem?_eq_getElem hi]
  · simp [hni]

theorem bitPos_inj {C r c r' c' : Nat} (hc : c < C) (hc' : c' < C)
    (h : r * C + c = r' * C + c') : r = r' ∧ c = c' := by
  have e1 : (r * C + c) % C = c % C := by
    rw [Nat.mul_comm]; exact Nat.mul_add_mod C r c
  have e2 : (r' * C + c') % C = c' % C := by
    rw [Nat.mul_comm]; exact Nat.mul_add_mod C r' c'
  rw [Nat.mod_eq_of_lt hc] at e1
  rw [Nat.mod_eq_of_lt hc'] at e2
  rw [h] at e1
  have hcc : c = c' := by omega
  subst hcc
  have hC : 0 < C := by omega
  have hr : r * C = r' * C := by omega
  exact ⟨Nat.eq_of_mul_eq_mul_right hC hr, rfl⟩

theorem simStep_eq {g : Cfg} {st : SimSt} {bid : Nat} {c : Nat}
    (hh : st.heights.getD c 0 < g.nRows) :
    simStep g (bid, st) c =
      (bid + st.player_turn * posMult g (g.nRows - st.heights.getD c 0 - 1) c,
       ⟨st.heights.set c (st.heights.getD c 0 + 1),
        st.player_turn % g.nPlayers + 1,
        st.total_moves + 1,
        st.masks.set st.player_turn
          ((st.masks.getD st.player_turn 0) |||
            2 ^ ((g.nRows - st.heights.getD c 0 - 1) * g.nCols + c))⟩) := by
  simp only [simStep, simPlace]
  rw [if_neg (by omega)]
  have h1 : ((g.nRows : Int) - st.heights.getD c 0 - 1).toNat
      = g.nRows - st.heights.getD c 0 - 1 := by omega
  simp only [h1, Nat.shiftLeft_eq, one_mul]

theorem sim_undo_place {g : Cfg} {st : SimSt} {bid : Nat} {c : Nat}
    (hlen : st.heights.length = g.nCols) (hmlen : st.masks.length = g.nPlayers + 1)
    (ht1 : 1 ≤ st.player_turn) (ht2 : st.player_turn ≤ g.nPlayers)
    (hc : c < g.nCols) (hh : st.heights.getD c 0 < g.nRows)
    (hbit : (st.masks.getD st.player_turn 0).testBit
      ((g.nRows - st.heights.getD c 0 - 1) * g.nCols + c) = false) :
    undoStep g (simStep g (bid, st) c) c = (bid, st) := by
  rw [simStep_eq hh]
  set h := st.heights.getD c 0 with hdef
  set row := g.nRows - h - 1 with hrow
  set k := row * g.nCols + c with hk
  set m := st.masks.getD st.player_turn 0 with hm
  have hclen : c < st.heights.length := by omega
  have htlen : st.player_turn < st.masks.length := by omega
  simp only [undoStep, simUndo]
  rw [getD_set_self hclen]
  have hrow2 : g.nRows - (h + 1) = row := by omega
  have hprior : (if 1 < st.player_turn % g.nPlayers + 1
      then st.player_turn % g.nPlayers + 1 - 1 else g.nPlayers) = st.player_turn := by
    rcases Nat.lt_or_ge st.player_turn g.nPlayers with hlt | hge
    · rw [Nat.mod_eq_of_lt hlt, if_pos (by omega)]
      omega
    · have he : st.player_turn = g.nPlayers := le_antisymm ht2 hge
      rw [he, Nat.mod_self, if_neg (by omega)]
  rw [hrow2, hprior]
  rw [getD_set_self htlen]
  have hmask : (m ||| 2 ^ k) - 1 <<< k = m := by
    rw [Nat.shiftLeft_eq, one_mul]
    exact lor_sub_two_pow_of_testBit_false hbit
  rw [hmask]
  rw [List.set_set, List.set_set]
  simp only [Nat.add_sub_cancel]
  rw [set_getD_self hclen, set_getD_self htlen]

theorem landing_bit_clear {g : Cfg} {st : SimSt} {c : Nat}
    (hInv : SimInv g st) (hc : c < g.nCols) (hh : st.heights.getD c 0 < g.nRows) :
    (st.masks.getD st.player_turn 0).testBit
      ((g.nRows - st.heights.getD c 0 - 1) * g.nCols + c) = false := by
  obtain ⟨hlen, hmlen, ht1, ht2, hhb, hmb⟩ := hInv
  exact hmb st.player_turn ht2 c hc _ (by omega) (by omega)

theorem simInv_step {g : Cfg} {st : SimSt} {bid : Nat} {c : Nat}
    (hInv : SimInv g st) (hc : c < g.nCols) (hh : st.heights.getD c 0 < g.nRows) :
    SimInv g (simStep g (bid, st) c).2 := by
  obtain ⟨hlen, hmlen, ht1, ht2, hhb, hmb⟩ := hInv
  rw [simStep_eq hh]
  dsimp only [SimInv]
  have hP : 1 ≤ g.nPlayers := le_trans ht1 ht2
  have hmod : st.player_turn % g.nPlayers < g.nPlayers :=
    Nat.mod_lt _ (by omega)
  refine ⟨by simpa using hlen, by simpa using hmlen, by omega, by omega, ?_, ?_⟩
  · intro c' hc'
    by_cases hcc : c = c'
    · subst hcc
      rw [getD_set_self (by omega)]
      omega
    · rw [getD_set_ne hcc]
      exact hhb c' hc'
  · intro p hp c' hc' r hr hr2
    by_cases hcc : c = c'
    · subst hcc
      rw [getD_set_self (by omega)] at hr2
      by_cases hpp : st.player_turn = p
      · subst hpp
        rw [getD_set_self (by omega), testBit_lor_two_pow]
        rw [hmb st.player_turn ht2 c hc r hr (by omega), Bool.false_or]
        apply decide_eq_false
        intro heq
        obtain ⟨hre, _⟩ := bitPos_inj hc hc heq
        omega
      · rw [getD_set_ne hpp]
        exact hmb p hp c hc r hr (by omega)
    · rw [getD_set_ne hcc] at hr2
      by_cases hpp : st.player_turn = p
      · subst hpp
        rw [getD_set_self (by omega), testBit_lor_two_pow]
        rw [hmb st.player_turn ht2 c' hc' r hr hr2, Bool.false_or]
        apply decide_eq_false
        intro heq
        obtain ⟨_, hce⟩ := bitPos_inj hc hc' heq
        exact hcc hce
      · rw [getD_set_ne hpp]
        exact hmb p hp c' hc' r hr hr2


theorem rayCount_sound (g : Cfg) (mask : Nat) (dr dc : Int) :
    ∀ (n : Nat) (r c : Int) (j : Nat), 1 ≤ j → j ≤ rayCount g mask r c dr dc n →
      cellBit g mask (r + j * dr) (c + j * dc) = true := by
  intro n
  induction n with
  | zero =>
    intro r c j h1 h2
    simp [rayCount] at h2
    omega
  | succ n ih =>
    intro r c j h1 h2
    simp only [rayCount] at h2
    by_cases hcb : cellBit g mask (r + dr) (c + dc) = true
    · rw [if_pos hcb] at h2
      obtain ⟨j', rfl⟩ : ∃ j', j = j' + 1 := ⟨j - 1, by omega⟩
      cases Nat.eq_zero_or_pos j' with
      | inl h0 =>
        subst h0
        convert hcb using 2 <;> push_cast <;> ring
      | inr hpos =>
        have hj : j' ≤ rayCount g mask (r + dr) (c + dc) dr dc n := by omega
        have hres := ih (r + dr) (c + dc) j' hpos hj
        convert hres using 2 <;> push_cast <;> ring
    · rw [if_neg hcb] at h2
      omega
  
theorem rayCount_complete (g : Cfg) (mask : Nat) (dr dc : Int) :
    ∀ (n m : Nat) (r c : Int), m ≤ n →
      (∀ j : Nat, 1 ≤ j → j ≤ m → cellBit g mask (r + j * dr) (c + j * dc) = true) →
      m ≤ rayCount g mask r c dr dc n := by
  intro n
  induction n with
  | zero =>
    intro m r c hmn _
    omega
  | succ n ih =>
    intro m r c hmn hall
    cases Nat.eq_zero_or_pos m with
    | inl h0 => omega
    | inr hm =>
      have hcb : cellBit g mask (r + dr) (c + dc) = true := by
        have h1 := hall 1 le_rfl hm
        convert h1 using 2 <;> push_cast <;> ring
      simp only [rayCount]
      rw [if_pos hcb]
      have hrec : m - 1 ≤ rayCount g mask (r + dr) (c + dc) dr dc n := by
        apply ih (m - 1) (r + dr) (c + dc) (by omega)
        intro j h1 h2
        have hres := hall (j + 1) (by omega) (by omega)
        convert hres using 2 <;> push_cast <;> ring
      omega


theorem scanLoop_win_result (g : Cfg) (siw : Int) (ct : Nat) :
    ∀ (cols : List Nat) (st : SimSt) (bid : Nat) (mag : Score) (w : Nat) (c : Int)
      (st' : SimSt) (bid' : Nat),
      scanLoop g siw ct cols st bid = (some (mag, w, c), st', bid') → w ≠ 0 →
      mag = Score.fin siw ∧ w = ct := by
  intro cols
  induction cols with
  | nil =>
    intro st bid mag w c st' bid' h hw
    simp [scanLoop] at h
  | cons c0 cs ih =>
    intro st bid mag w c st' bid' h hw
    simp only [scanLoop] at h
    split at h
    · exact ih _ _ _ _ _ _ _ h hw
    · split at h
      · simp only [Prod.mk.injEq, Option.some.injEq] at h
        obtain ⟨⟨hmag, hw2, _⟩, _⟩ := h
        exact ⟨hmag.symm, hw2.symm⟩
      · split at h
        · simp only [Prod.mk.injEq, Option.some.injEq] at h
          obtain ⟨⟨_, hw2, _⟩, _⟩ := h
          exact absurd hw2.symm hw
        · exact ih _ _ _ _ _ _ _ h hw

/-- Claim C1: for every position and every in-range column `col` with
`heights[col] < R`, `place(col)` lands at row `r = R − heights[col] − 1`,
sets the mover's occupancy bit at `(r, col)`, adds
`turn · (P+1)^(r·C+col)` to the position key, increments `heights[col]`
and `total_moves`; then, without yet advancing the turn, it returns
`WIN` if the placement completes a K-run through `(r, col)` (the
detector of claim C4 applied to the updated mask), else `DRAW` if
`total_moves` reached `C·R`, else advances the turn to
`(turn mod P) + 1` and returns `OK`. -/
theorem claim_C1 (g : Cfg) (st : GameSt) (c : Nat)
    (hc : c < g.nCols) (hh : st.heights.getD c 0 < g.nRows) :
    ∃ stMid : GameSt,
      stMid.heights = st.heights.set c (st.heights.getD c 0 + 1) ∧
      stMid.total_moves = st.total_moves + 1 ∧
      stMid.board_id = st.board_id + st.player_turn *
        (g.nPlayers + 1) ^ ((g.nRows - st.heights.getD c 0 - 1) * g.nCols + c) ∧
      stMid.masks = st.masks.set st.player_turn
        ((st.masks.getD st.player_turn 0) |||
          2 ^ ((g.nRows - st.heights.getD c 0 - 1) * g.nCols + c)) ∧
      stMid.player_turn = st.player_turn ∧
      place g st (c : Int) =
        some (if checkWinP g stMid.masks (g.nRows - st.heights.getD c 0 - 1) c
                st.player_turn then
                (TurnResult.WIN, stMid)
              else if stMid.total_moves = g.nCols * g.nRows then
                (TurnResult.DRAW, stMid)
              else
                (TurnResult.OK,
                 { stMid with player_turn := st.player_turn % g.nPlayers + 1 })) := by
  refine ⟨⟨st.heights.set c (st.heights.getD c 0 + 1), st.player_turn, st.total_moves + 1,
    st.board_id + st.player_turn *
      (g.nPlayers + 1) ^ ((g.nRows - st.heights.getD c 0 - 1) * g.nCols + c),
    st.masks.set st.player_turn
      ((st.masks.getD st.player_turn 0) |||
        2 ^ ((g.nRows - st.heights.getD c 0 - 1) * g.nCols + c))⟩,
    rfl, rfl, rfl, rfl, rfl, ?_⟩
  have hpy : pyIdx g.nCols (c : Int) = some c := by
    rw [pyIdx, if_pos ⟨Int.ofNat_nonneg c, by exact_mod_cast hc⟩]
    simp
  simp only [place, hpy]
  rw [if_neg (by omega)]
  have h1 : ((g.nRows : Int) - st.heights.getD c 0 - 1).toNat
      = g.nRows - st.heights.getD c 0 - 1 := by omega
  simp only [h1, Nat.shiftLeft_eq, one_mul, posMult]
  split_ifs <;> rfl

/-- Witness for claim C1 at a concrete input: the first move in column
0 of an empty 2×2 board. -/
theorem claim_C1_witness :
    ((0 : Nat) < (2 : Nat) ∧ ([0, 0] : List Nat).getD 0 0 < (2 : Nat)) ∧
    (∃ stMid : GameSt,
      stMid.heights = ([0, 0] : List Nat).set 0 (([0, 0] : List Nat).getD 0 0 + 1) ∧
      stMid.total_moves = 0 + 1 ∧
      stMid.board_id = 0 + 1 * (2 + 1) ^ ((2 - ([0, 0] : List Nat).getD 0 0 - 1) * 2 + 0) ∧
      stMid.masks = ([0, 0, 0] : List Nat).set 1
        ((([0, 0, 0] : List Nat).getD 1 0) |||
          2 ^ ((2 - ([0, 0] : List Nat).getD 0 0 - 1) * 2 + 0)) ∧
      stMid.player_turn = 1 ∧
      place ⟨2, 2, 2, 2⟩ ⟨[0, 0], 1, 0, 0, [0, 0, 0]⟩ ((0 : Nat) : Int) =
        some (if checkWinP ⟨2, 2, 2, 2⟩ stMid.masks
                (2 - ([0, 0] : List Nat).getD 0 0 - 1) 0 1 then
                (TurnResult.WIN, stMid)
              else if stMid.total_moves = 2 * 2 then
                (TurnResult.DRAW, stMid)
              else
                (TurnResult.OK, { stMid with player_turn := 1 % 2 + 1 }))) :=
  ⟨⟨by decide, by decide⟩,
   claim_C1 ⟨2, 2, 2, 2⟩ ⟨[0, 0], 1, 0, 0, [0, 0, 0]⟩ 0 (by decide) (by decide)⟩

/-- Counterexample to claim C2 as stated: out-of-range requested
columns are not rejected with `INVALID` and unchanged state.  On the
default empty board, `place(-1)` actually places a tile (Python's
negative indexing aliases the last column) and returns `OK` with a
mutated state, and `place(7)` raises `IndexError` instead of returning
`INVALID`. -/
theorem claim_C2_counterexample :
    place ⟨7, 6, 4, 2⟩ ⟨[0, 0, 0, 0, 0, 0, 0], 1, 0, 0, [0, 0, 0]⟩ (-1)
      ≠ some (TurnResult.INVALID, ⟨[0, 0, 0, 0, 0, 0, 0], 1, 0, 0, [0, 0, 0]⟩) ∧
    (place ⟨7, 6, 4, 2⟩ ⟨[0, 0, 0, 0, 0, 0, 0], 1, 0, 0, [0, 0, 0]⟩ (-1)).map
      Prod.fst = some TurnResult.OK ∧
    place ⟨7, 6, 4, 2⟩ ⟨[0, 0, 0, 0, 0, 0, 0], 1, 0, 0, [0, 0, 0]⟩ 7 = none := by
  refine ⟨by decide, ?_, by rfl⟩
  rfl

/-- Claim C2 as amended: for every game state and every requested
in-range column that is full (`0 ≤ col < C` and `R ≤ heights[col]`),
`place(col)` returns `INVALID` and leaves the entire game state
unchanged.  (Out-of-range columns are not validated by the code: a
negative column in `[-C, -1]` aliases a column counted from the right,
and anything else raises `IndexError`.) -/
theorem claim_C2 (g : Cfg) (st : GameSt) (c : Nat)
    (hc : c < g.nCols) (hfull : g.nRows ≤ st.heights.getD c 0) :
    place g st (c : Int) = some (TurnResult.INVALID, st) := by
  have hpy : pyIdx g.nCols (c : Int) = some c := by
    rw [pyIdx, if_pos ⟨Int.ofNat_nonneg c, by exact_mod_cast hc⟩]
    simp
  simp only [place, hpy]
  rw [if_pos (by omega)]

/-- Witness for claim C2 at a concrete input: a full column 0. -/
theorem claim_C2_witness :
    ((0 : Nat) < (2 : Nat) ∧ (2 : Nat) ≤ ([2, 0] : List Nat).getD 0 0) ∧
    place ⟨2, 2, 2, 2⟩ ⟨[2, 0], 1, 2, 18, [0, 4, 8]⟩ ((0 : Nat) : Int)
      = some (TurnResult.INVALID, ⟨[2, 0], 1, 2, 18, [0, 4, 8]⟩) :=
  ⟨⟨by decide, by decide⟩,
   claim_C2 ⟨2, 2, 2, 2⟩ ⟨[2, 0], 1, 2, 18, [0, 4, 8]⟩ 0 (by decide) (by decide)⟩

/-- Claim C3: applying any sequence of legal moves with the search's
make operation `_simulation_place` and then undoing them in reverse
order with `_simulation_undo_turn` returns all five state components —
the threaded `board_id`, `heights`, `total_moves`, `player_turn` and
`player_masked_board_ids` — exactly to their starting values, from any
well-formed starting state.  The singleton sequence is the statement
that undo after place on a non-full column is the identity. -/
theorem claim_C3 (g : Cfg) (p : Nat × SimSt) (ms : List Nat)
    (hInv : SimInv g p.2) (hLegal : legalSeqB g p ms = true) :
    List.foldl (undoStep g) (List.foldl (simStep g) p ms) ms.reverse = p := by
  induction ms generalizing p with
  | nil => simp
  | cons c cs ih =>
    obtain ⟨bid, st⟩ := p
    simp only [legalSeqB, Bool.and_eq_true, decide_eq_true_eq] at hLegal
    obtain ⟨⟨hc, hh⟩, htail⟩ := hLegal
    simp only [List.foldl_cons, List.reverse_cons]
    rw [List.foldl_append]
    rw [ih (simStep g (bid, st) c) (simInv_step hInv hc hh) htail]
    simp only [List.foldl_cons, List.foldl_nil]
    exact sim_undo_place hInv.1 hInv.2.1 hInv.2.2.1 hInv.2.2.2.1 hc hh
      (landing_bit_clear hInv hc hh)

/-- Witness for claim C3 at a concrete input: the legal sequence
`[0, 1, 0]` from the empty 2×2 board. -/
theorem claim_C3_witness :
    (SimInv ⟨2, 2, 2, 2⟩ (⟨[0, 0], 1, 0, [0, 0, 0]⟩ : SimSt) ∧
     legalSeqB ⟨2, 2, 2, 2⟩ (0, ⟨[0, 0], 1, 0, [0, 0, 0]⟩) [0, 1, 0] = true) ∧
    List.foldl (undoStep ⟨2, 2, 2, 2⟩)
      (List.foldl (simStep ⟨2, 2, 2, 2⟩) (0, ⟨[0, 0], 1, 0, [0, 0, 0]⟩) [0, 1, 0])
      ([0, 1, 0] : List Nat).reverse = (0, ⟨[0, 0], 1, 0, [0, 0, 0]⟩) :=
  ⟨⟨by refine ⟨by decide, by decide, by decide, by decide, by decide, by decide⟩,
     by decide⟩,
   claim_C3 ⟨2, 2, 2, 2⟩ (0, ⟨[0, 0], 1, 0, [0, 0, 0]⟩) [0, 1, 0]
     ⟨by decide, by decide, by decide, by decide, by decide, by decide⟩ (by decide)⟩

/-- Counterexample to claim C4 as stated: the win predicate counts the
queried cell itself without checking that the player owns it, so it is
not equivalent to the existence of a length-K contiguous run of
player-owned cells through the cell.  On a 4×2 board with K = 4 and
mask `14` (cells `(0,1)`, `(0,2)`, `(0,3)` owned, `(0,0)` not owned),
`_check_win(0, 0)` reports a win although no owned run passes through
`(0, 0)`. -/
theorem claim_C4_counterexample :
    checkWinMask ⟨4, 2, 4, 2⟩ 14 0 0 = true ∧ ¬ specRunWin ⟨4, 2, 4, 2⟩ 14 0 0 := by
  constructor
  · decide
  · rintro ⟨d, hd, a, b, hlen, hall⟩
    have h0 := hall 0 (by omega) (by omega)
    rw [show ((0 : Nat) : Int) + (0 : Int) * d.1 = ((0 : Nat) : Int) by ring,
      show ((0 : Nat) : Int) + (0 : Int) * d.2 = ((0 : Nat) : Int) by ring] at h0
    exact absurd h0 (by decide)

/-- Claim C4 as amended: `_check_win(row, col, player)` is a pure
function of the player's occupancy bitset and the cell, and — provided
the cell `(row, col)` itself is on the board and owned by the player,
as always holds at the call sites, which query the cell just placed —
it returns true if and only if along one of the four axes the
contiguous run of cells owned by that player through `(row, col)`
inside the board has length at least K. -/
theorem claim_C4 (g : Cfg) (mask : Nat) (row col : Nat)
    (hc : cellBit g mask row col = true) :
    checkWinMask g mask row col = true ↔ specRunWin g mask row col := by
  constructor
  · intro h
    rw [checkWinMask, List.any_eq_true] at h
    obtain ⟨d, hd, hcount⟩ := h
    rw [decide_eq_true_eq] at hcount
    refine ⟨d, hd, rayCount g mask row col d.1 d.2 (g.nConnect - 1),
      rayCount g mask row col (-d.1) (-d.2) (g.nConnect - 1), by omega, ?_⟩
    intro i h1 h2
    rcases lt_trichotomy i 0 with hi | hi | hi
    · obtain ⟨j, rfl⟩ : ∃ j : Nat, i = -(j : Int) := ⟨(-i).toNat, by omega⟩
      have hjge : 1 ≤ j := by omega
      have hjle : j ≤ rayCount g mask row col (-d.1) (-d.2) (g.nConnect - 1) := by
        omega
      have hres := rayCount_sound g mask (-d.1) (-d.2) (g.nConnect - 1) row col j hjge hjle
      convert hres using 2 <;> push_cast <;> ring
    · subst hi
      convert hc using 2 <;> push_cast <;> ring
    · obtain ⟨j, rfl⟩ : ∃ j : Nat, i = (j : Int) := ⟨i.toNat, by omega⟩
      have hjge : 1 ≤ j := by omega
      have hjle : j ≤ rayCount g mask row col d.1 d.2 (g.nConnect - 1) := by omega
      exact rayCount_sound g mask d.1 d.2 (g.nConnect - 1) row col j hjge hjle
  · rintro ⟨d, hd, a, b, hlen, hall⟩
    rw [checkWinMask, List.any_eq_true]
    refine ⟨d, hd, ?_⟩
    rw [decide_eq_true_eq]
    have hf : min a (g.nConnect - 1)
        ≤ rayCount g mask row col d.1 d.2 (g.nConnect - 1) := by
      apply rayCount_complete g mask d.1 d.2 (g.nConnect - 1) _ row col (by omega)
      intro j h1 h2
      exact hall j (by omega) (by omega)
    have hb : min b (g.nConnect - 1)
        ≤ rayCount g mask row col (-d.1) (-d.2) (g.nConnect - 1) := by
      apply rayCount_complete g mask (-d.1) (-d.2) (g.nConnect - 1) _ row col (by omega)
      intro j h1 h2
      have hres := hall (-(j : Int)) (by omega) (by omega)
      convert hres using 2 <;> push_cast <;> ring
    omega

/-- Witness for claim C4 at a concrete input: a placed cell completing
a vertical pair on the 2×2 board with K = 2. -/
theorem claim_C4_witness :
    cellBit ⟨2, 2, 2, 2⟩ 5 0 0 = true ∧
    (checkWinMask ⟨2, 2, 2, 2⟩ 5 0 0 = true ↔ specRunWin ⟨2, 2, 2, 2⟩ 5 0 0) :=
  ⟨by decide, claim_C4 ⟨2, 2, 2, 2⟩ 5 0 0 (by decide)⟩

/-- Counterexample to claim C5 as stated: when the immediate-terminal
scan finds a winning move, the magnitude returned is `C·R` minus the
move count before the winning placement, not minus the count including
it.  On the 2×2 board with K = 2, player 1 on `(1, 0)` and player 1 to
move with `total_moves = 1`, the winning reply in column 0 yields
magnitude `4 − 1 = 3`, not `4 − 2 = 2` as the claim would have it. -/
theorem claim_C5_counterexample :
    exploreU ⟨2, 2, 2, 2⟩ ⟨-1, Score.ninf, Score.pinf⟩ 1
      ⟨[1, 0], 1, 1, [0, 4, 0]⟩ 9 3 none none
      = some ((Score.fin 3, 1, 0), ⟨[1, 0], 1, 1, [0, 4, 0]⟩) ∧
    Score.fin 3 ≠ Score.fin ((2 * 2 : Int) - (1 + 1)) := by
  constructor
  · decide
  · decide

/-- Claim C5 as amended: whenever the immediate-terminal scan run by
the evaluator (with `score_if_win = C·R − total_moves` captured before
any placement and the mover captured as `current_turn`) reports a
winning placement in column `c`, the evaluator returns the triple
`(C·R − total_moves_before, mover, c)`, where `total_moves_before` is
the move count excluding the winning placement itself (one more than
the claim's `C·R − total_moves_after`). -/
theorem claim_C5 (g : Cfg) (bo : BotCfg) (fuel : Nat) (st : SimSt) (bid : Nat)
    (depth : Int) (mag : Score) (w : Nat) (c : Int) (st1 : SimSt) (bid1 : Nat)
    (hab : Score.lt bo.initAlpha bo.initBeta = true)
    (hd : depth ≠ 0) (hw : w ≠ 0)
    (hscan : scanLoop g ((g.nCols : Int) * g.nRows - st.total_moves) st.player_turn
      (List.range g.nCols) st bid = (some (mag, w, c), st1, bid1)) :
    mag = Score.fin ((g.nCols : Int) * g.nRows - st.total_moves) ∧
    w = st.player_turn ∧
    exploreU g bo (fuel + 1) st bid depth none none = some ((mag, w, c), st1) := by
  obtain ⟨hmag, hwct⟩ := scanLoop_win_result g _ _ _ _ _ _ _ _ _ _ hscan hw
  refine ⟨hmag, hwct, ?_⟩
  simp only [exploreU]
  rw [if_neg (by simp [hab]), if_neg hd, hscan]

/-- Witness for claim C5 at a concrete input: the immediate vertical
win of player 1 in column 0 on the 2×2 board. -/
theorem claim_C5_witness :
    (Score.lt Score.ninf Score.pinf = true ∧ (3 : Int) ≠ 0 ∧ (1 : Nat) ≠ 0 ∧
     scanLoop ⟨2, 2, 2, 2⟩ ((2 : Int) * 2 - 1) 1 (List.range 2)
       ⟨[1, 0], 1, 1, [0, 4, 0]⟩ 9
       = (some (Score.fin 3, 1, 0), ⟨[1, 0], 1, 1, [0, 4, 0]⟩, 9)) ∧
    Score.fin 3 = Score.fin ((2 : Int) * 2 - 1) ∧ (1 : Nat) = 1 ∧
    exploreU ⟨2, 2, 2, 2⟩ ⟨-1, Score.ninf, Score.pinf⟩ (0 + 1)
      ⟨[1, 0], 1, 1, [0, 4, 0]⟩ 9 3 none none
      = some ((Score.fin 3, 1, 0), ⟨[1, 0], 1, 1, [0, 4, 0]⟩) :=
  ⟨⟨by decide, by decide, by decide, by decide⟩,
   claim_C5 ⟨2, 2, 2, 2⟩ ⟨-1, Score.ninf, Score.pinf⟩ 0
     ⟨[1, 0], 1, 1, [0, 4, 0]⟩ 9 3 (Score.fin 3) 1 0
     ⟨[1, 0], 1, 1, [0, 4, 0]⟩ 9 (by decide) (by decide) (by decide) (by decide)⟩

/-- Counterexample to claim C6 as stated: when a child call returns
expected winner 0 through the hard-cutoff path `(beta, 0, -1)` with a
nonzero beta, the parent-relative score is `-beta`, not 0.  With the
initial window `(-5, -3)` on the empty 2×2 board (K = 2), the
evaluator's first child call — made with exactly the arguments the
parent passes, window `(3, 5)` at depth `-1` — returns `(1, 0, -1)`
via the hard cutoff, and the parent-relative score the code computes
from it is `-1 ≠ 0`; the root consequently returns magnitude 1 with
winner 0. -/
theorem claim_C6_counterexample :
    exploreU ⟨2, 2, 2, 2⟩ ⟨-1, Score.fin (-5), Score.fin (-3)⟩ 2
      ⟨[1, 0], 2, 1, [0, 4, 0]⟩ 9 (-1) (some (Score.fin 3)) (some (Score.fin 5))
      = some ((Score.fin 1, 0, -1), ⟨[1, 0], 2, 1, [0, 4, 0]⟩) ∧
    applySign 1 (Score.fin 1) 0 = Score.fin (-1) ∧
    Score.fin (-1) ≠ Score.fin 0 ∧
    exploreU ⟨2, 2, 2, 2⟩ ⟨-1, Score.fin (-5), Score.fin (-3)⟩ 3
      ⟨[0, 0], 1, 0, [0, 0, 0]⟩ 0 (-1) none none
      = some ((Score.fin 1, 0, 0), ⟨[0, 0], 1, 0, [0, 0, 0]⟩) := by
  refine ⟨by decide, by decide, by decide, by decide⟩

/-- Claim C6 as amended: when a child call returns expected winner
`w_c = 0`, the parent-relative score the expansion uses is `s = -m_c`
(the sign conversion applies because `0` is never the mover).  For
draw and depth-cutoff child returns `m_c = 0` and hence `s = 0`, but a
hard-cutoff return `(beta, 0, -1)` gives `s = -beta`, which is nonzero
whenever `beta` is. -/
theorem claim_C6 (ct : Nat) (m : Score) (hct : ct ≠ 0) :
    applySign ct m 0 = m.neg ∧ applySign ct (Score.fin 0) 0 = Score.fin 0 := by
  constructor
  · rw [applySign, if_pos (Ne.symm hct)]
  · rw [applySign, if_pos (Ne.symm hct)]
    rfl

/-- Witness for claim C6 at a concrete input. -/
theorem claim_C6_witness :
    (1 : Nat) ≠ 0 ∧
    (applySign 1 (Score.fin 1) 0 = (Score.fin 1).neg ∧
     applySign 1 (Score.fin 0) 0 = Score.fin 0) :=
  ⟨by decide, claim_C6 1 (Score.fin 1) (by decide)⟩

/-- Claim C7 is refuted by the code (a code bug relative to the spec's
guarantee): the evaluator does not always select a legal column in a
non-terminal position.  On the 2×2, K = 2, P = 3 board with the bottom
row holding players 1 and 2, player 3 to move (a position that is not
won — neither placed tile completes a run — not drawn, and has two
legal columns), the registry's weak solver (`max_depth = 13`,
window `(-1, 1)`) reaches the hard-cutoff path at the root: the search
returns column `-1` and `assert col != -1` in `_make_move` fails
(modelled as `none`). -/
theorem claim_C7 :
    makeMove ⟨2, 2, 2, 3⟩ ⟨13, Score.fin (-1), Score.fin 1⟩ 6
      ⟨[1, 1], 3, 2, 144, [0, 4, 8, 0]⟩ = none ∧
    exploreU ⟨2, 2, 2, 3⟩ ⟨13, Score.fin (-1), Score.fin 1⟩ 6
      ⟨[1, 1], 3, 2, [0, 4, 8, 0]⟩ 144 2 none none
      = some ((Score.fin (-1), 0, -1), ⟨[1, 1], 3, 2, [0, 4, 8, 0]⟩) ∧
    checkWinP ⟨2, 2, 2, 3⟩ [0, 4, 8, 0] 1 0 1 = false ∧
    checkWinP ⟨2, 2, 2, 3⟩ [0, 4, 8, 0] 1 1 2 = false ∧
    ([1, 1] : List Nat).getD 0 0 < 2 ∧ ([1, 1] : List Nat).getD 1 0 < 2 ∧
    (2 : Nat) ≠ 2 * 2 := by
  refine ⟨by decide, by decide, by decide, by decide, by decide, by decide, by decide⟩

/-- Claim C8: the evaluator's result is a deterministic function of the
board parameters, the bot's window, the position key, the mover and
the remaining depth: two runs from states consistent with the same key
(heights, masks and move count are the ones the key determines, as the
engine reconstructs them) and with the same mover return identical
triples — in particular identical `(magnitude, expected_winner)`
pairs.  The `lru_cache` memoizes on the full argument tuple
`(board_id, remaining_depth, alpha, beta)`, so caching preserves the
values of this deterministic function. -/
theorem claim_C8 (g : Cfg) (bo : BotCfg) (fuel : Nat) (st₁ st₂ : SimSt)
    (bid : Nat) (depth : Int) (alpha beta : Option Score)
    (h₁ : Consistent g st₁ bid) (h₂ : Consistent g st₂ bid)
    (ht : st₁.player_turn = st₂.player_turn) :
    exploreU g bo fuel st₁ bid depth alpha beta
      = exploreU g bo fuel st₂ bid depth alpha beta := by
  obtain ⟨a1, a2, a3⟩ := h₁
  obtain ⟨b1, b2, b3⟩ := h₂
  have hst : st₁ = st₂ := by
    cases st₁
    cases st₂
    simp_all
  rw [hst]

/-- Witness for claim C8 at a concrete input: the empty 2×2 position
reconstructed from key 0. -/
theorem claim_C8_witness :
    (Consistent ⟨2, 2, 2, 2⟩ (⟨[0, 0], 1, 0, [15, 0, 0]⟩ : SimSt) 0 ∧
     (1 : Nat) = 1) ∧
    exploreU ⟨2, 2, 2, 2⟩ ⟨-1, Score.ninf, Score.pinf⟩ 6
      ⟨[0, 0], 1, 0, [15, 0, 0]⟩ 0 (-1) none none
      = exploreU ⟨2, 2, 2, 2⟩ ⟨-1, Score.ninf, Score.pinf⟩ 6
        ⟨[0, 0], 1, 0, [15, 0, 0]⟩ 0 (-1) none none :=
  ⟨⟨⟨by decide, by decide, by decide⟩, rfl⟩,
   claim_C8 ⟨2, 2, 2, 2⟩ ⟨-1, Score.ninf, Score.pinf⟩ 6 _ _ 0 (-1) none none
     ⟨by decide, by decide, by decide⟩ ⟨by decide, by decide, by decide⟩ rfl⟩

/-- Counterexample to claim C9 as stated: constructing a solver bot
with `initial_alpha ≥ initial_beta` does not fail at construction time
— `CachingAlphaBetaBot.__init__` performs no validation, so the
constructor succeeds with the window `(1, 0)` even though `1 ≥ 0`. -/
theorem claim_C9_counterexample :
    catbInit (-1) (Score.fin 1) (Score.fin 0) ≠ none ∧
    Score.le (Score.fin 0) (Score.fin 1) = true := by
  constructor
  · decide
  · decide

/-- Claim C9 as amended: game construction fails exactly on the
configuration-bound violations (`n_cols < 2`, `n_rows < 2`,
`n_players < 2`, or `n_connect` outside `[2, max(n_cols, n_rows)]`);
bot construction never fails, and an inverted window
`initial_alpha ≥ initial_beta` instead makes the evaluator's
`assert alpha < beta` fail on its first invocation through the
argument-less entry point. -/
theorem claim_C9 :
    (∀ nCols nRows nConnect nPlayers : Nat,
      baseGameInit nCols nRows nConnect nPlayers = none ↔
        ¬(2 ≤ nCols ∧ 2 ≤ nRows ∧ 2 ≤ nPlayers ∧ 2 ≤ nConnect ∧
          nConnect ≤ max nCols nRows)) ∧
    (∀ (d : Int) (a b : Score), (catbInit d a b).isSome = true) ∧
    (∀ (g : Cfg) (bo : BotCfg) (fuel : Nat) (st : SimSt) (bid : Nat) (depth : Int),
      Score.lt bo.initAlpha bo.initBeta = false →
      exploreU g bo fuel st bid depth none none = none) := by
  refine ⟨?_, ?_, ?_⟩
  · intro a b c d
    rw [baseGameInit]
    split_ifs with h
    · constructor
      · intro hc
        simp at hc
      · intro hc
        exact absurd h hc
    · constructor
      · intro _
        exact h
      · intro _
        rfl
  · intro d a b
    rfl
  · intro g bo fuel st bid depth h
    cases fuel with
    | zero => rfl
    | succ n =>
      simp only [exploreU]
      rw [if_pos h]

/-- Witness for claim C9 at concrete inputs: an undersized board is
rejected, an inverted-window bot is constructed, and its first search
dies on the assertion. -/
theorem claim_C9_witness :
    (baseGameInit 1 6 4 2 = none ↔
      ¬(2 ≤ (1 : Nat) ∧ 2 ≤ (6 : Nat) ∧ 2 ≤ (2 : Nat) ∧ 2 ≤ (4 : Nat) ∧
        (4 : Nat) ≤ max 1 6)) ∧
    (catbInit (-1) (Score.fin 1) (Score.fin 0)).isSome = true ∧
    (Score.lt (Score.fin 1) (Score.fin 0) = false ∧
     exploreU ⟨7, 6, 4, 2⟩ ⟨-1, Score.fin 1, Score.fin 0⟩ 5
       ⟨[0, 0, 0, 0, 0, 0, 0], 1, 0, [0, 0, 0]⟩ 0 42 none none = none) :=
  ⟨claim_C9.1 1 6 4 2,
   claim_C9.2.1 (-1) (Score.fin 1) (Score.fin 0),
   by decide,
   claim_C9.2.2 ⟨7, 6, 4, 2⟩ ⟨-1, Score.fin 1, Score.fin 0⟩ 5
     ⟨[0, 0, 0, 0, 0, 0, 0], 1, 0, [0, 0, 0]⟩ 0 42 (by decide)⟩

/-- Claim C10: converting a `TurnResult` to bool yields `false` exactly
for `INVALID` while `WIN`, `DRAW` and `OK` are truthy; consequently
`RandomBot`'s loop retries exactly on invalid placements, and
`Game.place` updates the GUI tile if and only if the placement was
accepted (including game-ending placements). -/
theorem claim_C10 :
    (∀ r : TurnResult, r.toBool = false ↔ r = TurnResult.INVALID) ∧
    (∀ (g : Cfg) (st : GameSt) (col : Int) (res : TurnResult) (st' : GameSt)
       (upd : Bool),
      gamePlace g st col = some (res, st', upd) →
      (upd = true ↔ res ≠ TurnResult.INVALID)) ∧
    (∀ (g : Cfg) (st : GameSt) (col : Int) (b : Bool),
      randomBotRetries g st col = some b →
      (b = true ↔ (place g st col).map Prod.fst = some TurnResult.INVALID)) := by
  refine ⟨?_, ?_, ?_⟩
  · intro r
    cases r <;> simp [TurnResult.toBool]
  · intro g st col res st' upd h
    rw [gamePlace] at h
    cases hp : place g st col with
    | none =>
      rw [hp] at h
      simp at h
    | some v =>
      rw [hp] at h
      simp only [Option.some.injEq, Prod.mk.injEq] at h
      obtain ⟨h1, _, h3⟩ := h
      subst h1
      rw [← h3]
      cases v.1 <;> simp [TurnResult.toBool]
  · intro g st col b h
    rw [randomBotRetries] at h
    cases hp : place g st col with
    | none =>
      rw [hp] at h
      simp at h
    | some v =>
      rw [hp] at h
      simp only [Option.map_some', Option.some.injEq] at h
      subst h
      simp only [Option.map_some']
      cases v.1 <;> simp [TurnResult.toBool]

/-- Witness for claim C10 at concrete inputs: a draw result is truthy,
an accepted placement updates the GUI, and the random bot does not
retry after an accepted placement. -/
theorem claim_C10_witness :
    (TurnResult.DRAW.toBool = false ↔ TurnResult.DRAW = TurnResult.INVALID) ∧
    ((true : Bool) = true ↔ TurnResult.OK ≠ TurnResult.INVALID) ∧
    ((false : Bool) = true ↔
      (place ⟨2, 2, 2, 2⟩ ⟨[0, 0], 1, 0, 0, [0, 0, 0]⟩ 0).map Prod.fst
        = some TurnResult.INVALID) :=
  ⟨claim_C10.1 TurnResult.DRAW,
   claim_C10.2.1 ⟨2, 2, 2, 2⟩ ⟨[0, 0], 1, 0, 0, [0, 0, 0]⟩ 0 TurnResult.OK
     ⟨[1, 0], 2, 1, 9, [0, 4, 0]⟩ true (by decide),
   claim_C10.2.2 ⟨2, 2, 2, 2⟩ ⟨[0, 0], 1, 0, 0, [0, 0, 0]⟩ 0 false (by decide)⟩
